import Mathlib

/-!
Verification development for the WakaTime productivity-statistics engine
(`src/waka.py`): a shallow embedding of the session reconstructor
(`get_coding_durations`, `_update_activity_duration`, `_normalize_file_path`),
the daily-stats upsert (`save_daily_stats`) and the productivity analyzer
(`get_productivity_analysis`), together with theorems settling the frozen
claims about them.

Modelling conventions:
* Unix timestamps and the API's decimal-hours values are floats in the source;
  they are embedded as rationals (`Rat`).  No claim depends on float rounding.
* Python dicts keyed by strings become insertion-ordered association lists
  (`List (String × _)`); dict updates preserve the position of existing keys
  and append new keys at the end, as CPython does.
* Missing dictionary keys in fetched JSON are the malformation the claims talk
  about; an optional field is embedded as `Option _`, and an access that would
  raise `KeyError` becomes an `Except` error.  Decimal leaf values are taken
  as already numeric.
* Timezone/date helpers (`get_local_datetime`, `isocalendar`, `fromisoformat`)
  are external collaborators per the specification; where their output matters
  they are passed in as explicit arguments.
-/

namespace Waka

/-- One raw activity event (heartbeat) as consumed by `get_coding_durations`:
`time` is required, every other field the code reads is optional. -/
structure Heartbeat where
  time : Rat
  entity : Option String
  type : Option String
  project : Option String
  language : Option String
  category : Option String
  line_additions : Option Nat
  line_deletions : Option Nat
  deriving DecidableEq, Repr

/-- Value stored in a session's `activities.files` mapping:
`{"duration": ..., "type": ...}`. -/
structure FileEntry where
  duration : Rat
  type : String
  deriving DecidableEq, Repr

/-- The four per-dimension duration mappings of a session. -/
structure Activities where
  files : List (String × FileEntry)
  projects : List (String × Rat)
  languages : List (String × Rat)
  categories : List (String × Rat)
  deriving DecidableEq, Repr

/-- The `line_changes` counters of a session. -/
structure LineChanges where
  additions : Nat
  deletions : Nat
  deriving DecidableEq, Repr

/-- A reconstructed coding session (the raw, pre-`_format_duration` shape built
by `get_coding_durations`; formatting only renders timestamps and minutes). -/
structure Session where
  start_time : Rat
  end_time : Rat
  duration : Rat
  activities : Activities
  line_changes : LineChanges
  deriving DecidableEq, Repr

/-- Helper for `basename`: the characters of the current path segment are
accumulated in reverse in `cur`; a slash resets the segment. -/
def lastSegment (cur : List Char) : List Char → List Char
  | [] => cur.reverse
  | c :: cs => if c = '/' then lastSegment [] cs else lastSegment (c :: cur) cs

/-- Model of `os.path.basename` on POSIX paths: everything after the last
slash, so `"/a/b/x.py" ↦ "x.py"`, `"x.py" ↦ "x.py"`, `"/a/b/" ↦ ""`. -/
def basename (s : String) : String := String.mk (lastSegment [] s.data)

/-- Embedding of `WakaTimeClient._normalize_file_path`: a falsy (empty) path is
returned unchanged, otherwise `os.path.basename` strips the directories. -/
def normalize_file_path (file_path : String) : String :=
  if file_path = "" then file_path else basename file_path

/-- Python dict idiom `if k not in m: m[k] = 0` followed by `m[k] += d`, on an
insertion-ordered association list. -/
def bumpDur (m : List (String × Rat)) (k : String) (d : Rat) : List (String × Rat) :=
  if m.any (fun p => p.1 == k) then
    m.map (fun p => if p.1 == k then (p.1, p.2 + d) else p)
  else m ++ [(k, 0 + d)]

/-- Same idiom for the files mapping, whose values carry the entity type fixed
at first insertion. -/
def bumpFileDur (m : List (String × FileEntry)) (k : String) (tp : String) (d : Rat) :
    List (String × FileEntry) :=
  if m.any (fun p => p.1 == k) then
    m.map (fun p => if p.1 == k then (p.1, { p.2 with duration := p.2.duration + d }) else p)
  else m ++ [(k, { duration := 0 + d, type := tp })]

/-- Embedding of `WakaTimeClient._update_activity_duration`: add `duration`
seconds under each dimension key present on the heartbeat (file key normalized
to its basename, file type defaulted to `"unknown"`). -/
def update_activity_duration (session : Session) (heartbeat : Heartbeat) (duration : Rat) :
    Session :=
  let acts := session.activities
  let acts :=
    match heartbeat.entity with
    | none => acts
    | some e =>
        let entity := normalize_file_path e
        { acts with files := bumpFileDur acts.files entity (heartbeat.type.getD "unknown") duration }
  let acts :=
    match heartbeat.project with
    | none => acts
    | some project => { acts with projects := bumpDur acts.projects project duration }
  let acts :=
    match heartbeat.language with
    | none => acts
    | some language => { acts with languages := bumpDur acts.languages language duration }
  let acts :=
    match heartbeat.category with
    | none => acts
    | some category => { acts with categories := bumpDur acts.categories category duration }
  { session with activities := acts }

/-- A freshly started session at heartbeat `hb` with the given seed line-change
counters (the source seeds `(0, 0)` for the first session of a run and the
event's own counters for a session started after an over-threshold gap). -/
def newSession (hb : Heartbeat) (adds dels : Nat) : Session :=
  { start_time := hb.time
    end_time := hb.time
    duration := 0
    activities := { files := [], projects := [], languages := [], categories := [] }
    line_changes := { additions := adds, deletions := dels } }

/-- The loop of `get_coding_durations` (source lines 251–311): `prev` is
`data[i-1]`, `rest` the not-yet-visited heartbeats, `acc` the already closed
sessions.  The `if current.get("line_additions")` truthiness test of the source
adds the counter exactly when it is present and non-zero, which is the same sum
as always adding `getD 0`. -/
def coding_durations_loop (merge_threshold : Rat) (current_session : Session)
    (prev : Heartbeat) (rest : List Heartbeat) (acc : List Session) : List Session :=
  match rest with
  | [] =>
      let final_duration := current_session.end_time - prev.time
      let last_session :=
        if final_duration > 0 then update_activity_duration current_session prev final_duration
        else current_session
      acc ++ [last_session]
  | current :: rest2 =>
      let time_diff := current.time - prev.time
      if time_diff ≤ merge_threshold then
        let s := { current_session with
                     end_time := current.time
                     duration := current.time - current_session.start_time }
        let s := if time_diff > 0 then update_activity_duration s prev time_diff else s
        let s := { s with line_changes :=
                    { additions := s.line_changes.additions + current.line_additions.getD 0
                      deletions := s.line_changes.deletions + current.line_deletions.getD 0 } }
        coding_durations_loop merge_threshold s current rest2 acc
      else
        let final_duration := current_session.end_time - prev.time
        let closed :=
          if final_duration > 0 then update_activity_duration current_session prev final_duration
          else current_session
        let ns := newSession current (current.line_additions.getD 0) (current.line_deletions.getD 0)
        let ns := update_activity_duration ns current 0
        coding_durations_loop merge_threshold ns current rest2 (acc ++ [closed])

/-- Embedding of `WakaTimeClient.get_coding_durations` on the time-sorted
heartbeat list (the source sorts the fetched data by `time` first; every claim
quantifies over the sorted list).  Output is the list of raw sessions. -/
def get_coding_durations (merge_threshold : Rat) (data : List Heartbeat) : List Session :=
  match data with
  | [] => []
  | first :: rest =>
      let s := newSession first 0 0
      let s := update_activity_duration s first 0
      coding_durations_loop merge_threshold s first rest []

/-- Number of consecutive-event gaps strictly above the merge threshold: by
the branch at source line 257, each such gap closes a session, every other gap
merges. -/
def countGapsOver (merge_threshold : Rat) : List Heartbeat → Nat
  | a :: b :: rest =>
      (if b.time - a.time ≤ merge_threshold then 0 else 1)
        + countGapsOver merge_threshold (b :: rest)
  | _ => 0

theorem coding_durations_loop_length (t : Rat) :
    ∀ (rest : List Heartbeat) (s : Session) (prev : Heartbeat) (acc : List Session),
      (coding_durations_loop t s prev rest acc).length
        = acc.length + 1 + countGapsOver t (prev :: rest) := by
  intro rest
  induction rest with
  | nil =>
      intro s prev acc
      simp [coding_durations_loop, countGapsOver]
  | cons current rest2 ih =>
      intro s prev acc
      by_cases h : current.time - prev.time ≤ t
      · simp only [coding_durations_loop, if_pos h, countGapsOver]
        rw [ih]
        omega
      · simp only [coding_durations_loop, if_neg h, countGapsOver]
        rw [ih]
        simp
        omega

theorem get_coding_durations_length (t : Rat) (x : Heartbeat) (xs : List Heartbeat) :
    (get_coding_durations t (x :: xs)).length = 1 + countGapsOver t (x :: xs) := by
  simp [get_coding_durations, coding_durations_loop_length]

theorem countGapsOver_append_pair (t : Rat) (a b : Heartbeat) :
    ∀ (l : List Heartbeat),
      countGapsOver t (l ++ [a, b])
        = countGapsOver t (l ++ [a]) + (if b.time - a.time ≤ t then 0 else 1) := by
  intro l
  induction l with
  | nil => simp [countGapsOver]
  | cons c rest ih =>
      cases rest with
      | nil => simp [countGapsOver]
      | cons d l2 =>
          simp only [List.cons_append, List.append_eq, countGapsOver] at ih ⊢
          omega

/-- C1: in `get_coding_durations`, two consecutive time-sorted events merge
into the same session exactly when their gap is at most `merge_threshold`
(inclusive: a gap equal to the threshold merges), and a strictly larger gap
closes the current session and starts a new one.  First conjunct: the number
of sessions is one more than the number of over-threshold gaps, so every
in-threshold gap merges and every over-threshold gap splits.  Second conjunct:
appending one more event `b` after `a` leaves the session count unchanged iff
`b.time - a.time ≤ merge_threshold`, and raises it by one otherwise. -/
theorem merge_iff_gap_le_threshold :
    (∀ (merge_threshold : Rat) (x : Heartbeat) (xs : List Heartbeat),
      (get_coding_durations merge_threshold (x :: xs)).length
        = 1 + countGapsOver merge_threshold (x :: xs)) ∧
    (∀ (merge_threshold : Rat) (xs : List Heartbeat) (a b : Heartbeat),
      (get_coding_durations merge_threshold (xs ++ [a, b])).length
        = (get_coding_durations merge_threshold (xs ++ [a])).length
          + (if b.time - a.time ≤ merge_threshold then 0 else 1)) := by
  constructor
  · intro t x xs
    exact get_coding_durations_length t x xs
  · intro t xs a b
    cases xs with
    | nil =>
        simp only [List.nil_append]
        rw [get_coding_durations_length, get_coding_durations_length]
        simp [countGapsOver]
    | cons x rest =>
        simp only [List.cons_append]
        rw [get_coding_durations_length, get_coding_durations_length]
        have h := countGapsOver_append_pair t a b (x :: rest)
        simp only [List.cons_append] at h
        omega

/-- Heartbeat at time `t` whose only optional field is `entity = "a.py"`, as in
the spec scenario for the session reconstructor. -/
def a_py_heartbeat (t : Rat) : Heartbeat :=
  { time := t, entity := some "a.py", type := none, project := none,
    language := none, category := none, line_additions := none, line_deletions := none }

/-- C2: events at times 0, 100, 200, 1000 with `entity="a.py"` and merge
threshold 300 reconstruct to exactly two sessions: one spanning `[0, 200]`
with 200 seconds attributed to `a.py` (100 from each in-threshold gap, charged
to the previous event), and one spanning `[1000, 1000]` with zero duration. -/
theorem scenario_four_events_two_sessions :
    get_coding_durations 300
        [a_py_heartbeat 0, a_py_heartbeat 100, a_py_heartbeat 200, a_py_heartbeat 1000] =
      [ { start_time := 0, end_time := 200, duration := 200,
          activities := { files := [("a.py", { duration := 200, type := "unknown" })],
                          projects := [], languages := [], categories := [] },
          line_changes := { additions := 0, deletions := 0 } },
        { start_time := 1000, end_time := 1000, duration := 0,
          activities := { files := [("a.py", { duration := 0, type := "unknown" })],
                          projects := [], languages := [], categories := [] },
          line_changes := { additions := 0, deletions := 0 } } ] := by
  norm_num [get_coding_durations, coding_durations_loop, update_activity_duration,
    bumpFileDur, bumpDur, newSession, normalize_file_path, basename, lastSegment,
    a_py_heartbeat]
  decide

theorem update_activity_duration_start_time (s : Session) (hb : Heartbeat) (d : Rat) :
    (update_activity_duration s hb d).start_time = s.start_time := rfl

theorem update_activity_duration_end_time (s : Session) (hb : Heartbeat) (d : Rat) :
    (update_activity_duration s hb d).end_time = s.end_time := rfl

theorem update_activity_duration_duration (s : Session) (hb : Heartbeat) (d : Rat) :
    (update_activity_duration s hb d).duration = s.duration := rfl

theorem update_activity_duration_line_changes (s : Session) (hb : Heartbeat) (d : Rat) :
    (update_activity_duration s hb d).line_changes = s.line_changes := rfl

theorem update_activity_duration_files (s : Session) (hb : Heartbeat) (d : Rat) :
    (update_activity_duration s hb d).activities.files
      = match hb.entity with
        | none => s.activities.files
        | some e =>
            bumpFileDur s.activities.files (normalize_file_path e) (hb.type.getD "unknown") d := by
  obtain ⟨tm, ent, ty, pr, la, ca, lad, lde⟩ := hb
  cases ent <;> cases pr <;> cases la <;> cases ca <;> rfl

theorem update_activity_duration_projects (s : Session) (hb : Heartbeat) (d : Rat) :
    (update_activity_duration s hb d).activities.projects
      = match hb.project with
        | none => s.activities.projects
        | some project => bumpDur s.activities.projects project d := by
  obtain ⟨tm, ent, ty, pr, la, ca, lad, lde⟩ := hb
  cases ent <;> cases pr <;> cases la <;> cases ca <;> rfl

theorem update_activity_duration_languages (s : Session) (hb : Heartbeat) (d : Rat) :
    (update_activity_duration s hb d).activities.languages
      = match hb.language with
        | none => s.activities.languages
        | some language => bumpDur s.activities.languages language d := by
  obtain ⟨tm, ent, ty, pr, la, ca, lad, lde⟩ := hb
  cases ent <;> cases pr <;> cases la <;> cases ca <;> rfl

theorem update_activity_duration_categories (s : Session) (hb : Heartbeat) (d : Rat) :
    (update_activity_duration s hb d).activities.categories
      = match hb.category with
        | none => s.activities.categories
        | some category => bumpDur s.activities.categories category d := by
  obtain ⟨tm, ent, ty, pr, la, ca, lad, lde⟩ := hb
  cases ent <;> cases pr <;> cases la <;> cases ca <;> rfl

theorem normalize_eq_basename (e : String) : normalize_file_path e = basename e := by
  unfold normalize_file_path
  by_cases h : e = ""
  · subst h; rfl
  · rw [if_neg h]

/-- Heartbeat carrying only a file entity (and optionally a type), used to
state the file-dimension key claims. -/
def file_only_heartbeat (t : Rat) (e : String) (tp : Option String) : Heartbeat :=
  { time := t, entity := some e, type := tp, project := none,
    language := none, category := none, line_additions := none, line_deletions := none }

/-- C4: file-dimension keys are path-independent.  First conjunct: the mapping
key used for an entity is always its base name (directory components stripped
by `_normalize_file_path` before use).  Second conjunct: the two example paths
`/a/b/x.py` and `/c/x.py` both normalize to the key `x.py`.  Third conjunct:
starting from a session whose files mapping is empty, two events whose entity
paths share a base name accumulate their durations in the single entry keyed by
that base name. -/
theorem file_keys_path_independent :
    (∀ e : String, normalize_file_path e = basename e) ∧
    (normalize_file_path "/a/b/x.py" = "x.py" ∧ normalize_file_path "/c/x.py" = "x.py") ∧
    (∀ (s : Session) (t1 t2 : Rat) (e1 e2 : String) (tp1 tp2 : Option String) (d1 d2 : Rat),
      s.activities.files = [] →
      basename e1 = basename e2 →
      (update_activity_duration
          (update_activity_duration s (file_only_heartbeat t1 e1 tp1) d1)
          (file_only_heartbeat t2 e2 tp2) d2).activities.files
        = [(basename e1, { duration := 0 + d1 + d2, type := tp1.getD "unknown" })]) := by
  refine ⟨normalize_eq_basename, ⟨by decide, by decide⟩, ?_⟩
  intro s t1 t2 e1 e2 tp1 tp2 d1 d2 hempty hbase
  rw [update_activity_duration_files]
  simp only [file_only_heartbeat]
  rw [update_activity_duration_files]
  simp only [file_only_heartbeat, hempty]
  rw [normalize_eq_basename, normalize_eq_basename, ← hbase]
  simp [bumpFileDur]

/-- Closed instance of the path-independence theorem at the example paths from
the specification. -/
theorem file_keys_path_independent_witness :
    (update_activity_duration
        (update_activity_duration
          (newSession (file_only_heartbeat 0 "/a/b/x.py" none) 0 0)
          (file_only_heartbeat 0 "/a/b/x.py" none) 3)
        (file_only_heartbeat 7 "/c/x.py" none) 4).activities.files
      = [("x.py", { duration := 0 + 3 + 4, type := "unknown" })] := by
  have h := file_keys_path_independent.2.2
    (newSession (file_only_heartbeat 0 "/a/b/x.py" none) 0 0) 0 7 "/a/b/x.py" "/c/x.py"
    none none 3 4 rfl (by decide)
  have hb : basename "/a/b/x.py" = "x.py" := by decide
  rw [h, hb]
  rfl

/-- Every accumulated duration in each of the four dimension mappings of a
session is non-negative. -/
def sessionNonneg (s : Session) : Prop :=
  (∀ p ∈ s.activities.files, 0 ≤ p.2.duration) ∧
  (∀ p ∈ s.activities.projects, 0 ≤ p.2) ∧
  (∀ p ∈ s.activities.languages, 0 ≤ p.2) ∧
  (∀ p ∈ s.activities.categories, 0 ≤ p.2)

theorem bumpDur_nonneg {m : List (String × Rat)} {k : String} {d : Rat}
    (hm : ∀ p ∈ m, 0 ≤ p.2) (hd : 0 ≤ d) : ∀ p ∈ bumpDur m k d, 0 ≤ p.2 := by
  intro p hp
  unfold bumpDur at hp
  by_cases h : m.any (fun p => p.1 == k)
  · rw [if_pos h] at hp
    rcases List.mem_map.mp hp with ⟨q, hq, rfl⟩
    by_cases hqk : (q.1 == k) = true
    · simp only [hqk, if_true]
      exact add_nonneg (hm q hq) hd
    · simp only [hqk, if_false]
      exact hm q hq
  · rw [if_neg h] at hp
    rcases List.mem_append.mp hp with h1 | h1
    · exact hm p h1
    · simp only [List.mem_singleton] at h1
      subst h1
      simpa using hd

theorem bumpFileDur_nonneg {m : List (String × FileEntry)} {k tp : String} {d : Rat}
    (hm : ∀ p ∈ m, 0 ≤ p.2.duration) (hd : 0 ≤ d) :
    ∀ p ∈ bumpFileDur m k tp d, 0 ≤ p.2.duration := by
  intro p hp
  unfold bumpFileDur at hp
  by_cases h : m.any (fun p => p.1 == k)
  · rw [if_pos h] at hp
    rcases List.mem_map.mp hp with ⟨q, hq, rfl⟩
    by_cases hqk : (q.1 == k) = true
    · simp only [hqk, if_true]
      exact add_nonneg (hm q hq) hd
    · simp only [hqk, if_false]
      exact hm q hq
  · rw [if_neg h] at hp
    rcases List.mem_append.mp hp with h1 | h1
    · exact hm p h1
    · simp only [List.mem_singleton] at h1
      subst h1
      simpa using hd

theorem sessionNonneg_update {s : Session} {hb : Heartbeat} {d : Rat}
    (hs : sessionNonneg s) (hd : 0 ≤ d) : sessionNonneg (update_activity_duration s hb d) := by
  obtain ⟨h1, h2, h3, h4⟩ := hs
  refine ⟨?_, ?_, ?_, ?_⟩
  · rw [update_activity_duration_files]
    cases hb.entity with
    | none => exact h1
    | some e => exact bumpFileDur_nonneg h1 hd
  · rw [update_activity_duration_projects]
    cases hb.project with
    | none => exact h2
    | some pr => exact bumpDur_nonneg h2 hd
  · rw [update_activity_duration_languages]
    cases hb.language with
    | none => exact h3
    | some la => exact bumpDur_nonneg h3 hd
  · rw [update_activity_duration_categories]
    cases hb.category with
    | none => exact h4
    | some ca => exact bumpDur_nonneg h4 hd

/-- Record updates that leave `activities` untouched preserve the invariant. -/
theorem sessionNonneg_of_activities_eq {s s2 : Session}
    (h : s2.activities = s.activities) (hs : sessionNonneg s) : sessionNonneg s2 := by
  unfold sessionNonneg at *
  rw [h]
  exact hs

theorem sessionNonneg_newSession (hb : Heartbeat) (adds dels : Nat) :
    sessionNonneg (newSession hb adds dels) := by
  refine ⟨?_, ?_, ?_, ?_⟩ <;> intro p hp <;> simp [newSession] at hp

theorem coding_durations_loop_nonneg (t : Rat) :
    ∀ (rest : List Heartbeat) (prev : Heartbeat) (s : Session) (acc : List Session),
      sessionNonneg s → (∀ x ∈ acc, sessionNonneg x) →
      ∀ x ∈ coding_durations_loop t s prev rest acc, sessionNonneg x := by
  intro rest
  induction rest with
  | nil =>
      intro prev s acc hs hacc x hx
      unfold coding_durations_loop at hx
      rcases List.mem_append.mp hx with h1 | h1
      · exact hacc x h1
      · simp only [List.mem_singleton] at h1
        subst h1
        by_cases hfd : s.end_time - prev.time > 0
        · rw [if_pos hfd]
          exact sessionNonneg_update hs (le_of_lt hfd)
        · rw [if_neg hfd]
          exact hs
  | cons current rest2 ih =>
      intro prev s acc hs hacc x hx
      unfold coding_durations_loop at hx
      by_cases h : current.time - prev.time ≤ t
      · rw [if_pos h] at hx
        refine ih current _ acc ?_ hacc x hx
        have hmerge : sessionNonneg
            { s with end_time := current.time, duration := current.time - s.start_time } :=
          sessionNonneg_of_activities_eq rfl hs
        by_cases htd : current.time - prev.time > 0
        · rw [if_pos htd]
          exact sessionNonneg_of_activities_eq rfl
            (sessionNonneg_update hmerge (le_of_lt htd))
        · rw [if_neg htd]
          exact sessionNonneg_of_activities_eq rfl hmerge
      · rw [if_neg h] at hx
        refine ih current _ (acc ++ [_]) ?_ ?_ x hx
        · exact sessionNonneg_update (sessionNonneg_newSession current _ _) le_rfl
        · intro y hy
          rcases List.mem_append.mp hy with h1 | h1
          · exact hacc y h1
          · simp only [List.mem_singleton] at h1
            subst h1
            by_cases hfd : s.end_time - prev.time > 0
            · rw [if_pos hfd]
              exact sessionNonneg_update hs (le_of_lt hfd)
            · rw [if_neg hfd]
              exact hs

/-- Instrumentation of the loop: the `duration` arguments actually passed to
`_update_activity_duration` at the three guarded attribution sites (the
in-threshold gap at source lines 264–265, the session close at 280–283 and the
final close at 307–308).  The explicit zero-duration initialization calls at
lines 249 and 303 are not computed deltas and are not collected.  Of the
session state only `end_time` influences these values, so only it is
tracked: a merge sets it to the current event's time, a new session starts
at the current event's time. -/
def added_deltas_loop (t : Rat) (endTime : Rat) (prev : Heartbeat) :
    List Heartbeat → List Rat
  | [] =>
      if endTime - prev.time > 0 then [endTime - prev.time] else []
  | current :: rest2 =>
      if current.time - prev.time ≤ t then
        (if current.time - prev.time > 0 then [current.time - prev.time] else [])
          ++ added_deltas_loop t current.time current rest2
      else
        (if endTime - prev.time > 0 then [endTime - prev.time] else [])
          ++ added_deltas_loop t current.time current rest2

/-- All dimension-duration deltas attributed during `get_coding_durations`. -/
def added_deltas (t : Rat) : List Heartbeat → List Rat
  | [] => []
  | x :: xs => added_deltas_loop t x.time x xs

theorem added_deltas_loop_pos (t : Rat) :
    ∀ (rest : List Heartbeat) (endTime : Rat) (prev : Heartbeat),
      ∀ d ∈ added_deltas_loop t endTime prev rest, 0 < d := by
  intro rest
  induction rest with
  | nil =>
      intro endTime prev d hd
      unfold added_deltas_loop at hd
      by_cases h : endTime - prev.time > 0
      · rw [if_pos h] at hd
        simp only [List.mem_singleton] at hd
        subst hd; exact h
      · rw [if_neg h] at hd
        simp at hd
  | cons current rest2 ih =>
      intro endTime prev d hd
      unfold added_deltas_loop at hd
      by_cases h : current.time - prev.time ≤ t
      · rw [if_pos h] at hd
        rcases List.mem_append.mp hd with h1 | h1
        · by_cases htd : current.time - prev.time > 0
          · rw [if_pos htd] at h1
            simp only [List.mem_singleton] at h1
            subst h1; exact htd
          · rw [if_neg htd] at h1
            simp at h1
        · exact ih current.time current d h1
      · rw [if_neg h] at hd
        rcases List.mem_append.mp hd with h1 | h1
        · by_cases hfd : endTime - prev.time > 0
          · rw [if_pos hfd] at h1
            simp only [List.mem_singleton] at h1
            subst h1; exact hfd
          · rw [if_neg hfd] at h1
            simp at h1
        · exact ih current.time current d h1

/-- C3: every accumulated duration in each of the four dimension mappings of
every session produced by `get_coding_durations` is non-negative, and every
computed delta actually attributed to a dimension (collected by
`added_deltas`) is strictly positive — a non-positive computed delta is never
added. -/
theorem session_durations_nonneg (merge_threshold : Rat) (data : List Heartbeat) :
    (∀ s ∈ get_coding_durations merge_threshold data, sessionNonneg s) ∧
    (∀ d ∈ added_deltas merge_threshold data, 0 < d) := by
  constructor
  · intro s hs
    cases data with
    | nil => simp [get_coding_durations] at hs
    | cons first rest =>
        unfold get_coding_durations at hs
        refine coding_durations_loop_nonneg merge_threshold rest first _ [] ?_ ?_ s hs
        · exact sessionNonneg_update (sessionNonneg_newSession first 0 0) le_rfl
        · intro y hy; simp at hy
  · intro d hd
    cases data with
    | nil => simp [added_deltas] at hd
    | cons first rest =>
        exact added_deltas_loop_pos merge_threshold rest first.time first d hd

/-- Closed instance of the non-negativity theorem on a concrete two-event
run: the produced session satisfies the invariant, and the attributed delta
`100` is positive. -/
theorem session_durations_nonneg_witness :
    (∃ s ∈ get_coding_durations 300 [a_py_heartbeat 0, a_py_heartbeat 100], sessionNonneg s) ∧
    (∃ d ∈ added_deltas 300 [a_py_heartbeat 0, a_py_heartbeat 100], 0 < d) := by
  have h := session_durations_nonneg 300 [a_py_heartbeat 0, a_py_heartbeat 100]
  have hg : get_coding_durations 300 [a_py_heartbeat 0, a_py_heartbeat 100] =
      [ { start_time := 0, end_time := 100, duration := 100,
          activities := { files := [("a.py", { duration := 100, type := "unknown" })],
                          projects := [], languages := [], categories := [] },
          line_changes := { additions := 0, deletions := 0 } } ] := by
    norm_num [get_coding_durations, coding_durations_loop, update_activity_duration,
      bumpFileDur, bumpDur, newSession, normalize_file_path, basename, lastSegment,
      a_py_heartbeat]
    decide
  have hd : added_deltas 300 [a_py_heartbeat 0, a_py_heartbeat 100] = [100] := by
    norm_num [added_deltas, added_deltas_loop, a_py_heartbeat]
  exact ⟨⟨_, by rw [hg]; exact List.mem_singleton.mpr rfl, h.1 _ (by rw [hg]; simp)⟩,
         ⟨100, by rw [hd]; simp, h.2 100 (by rw [hd]; simp)⟩⟩

/-- Instrumentation of the "remaining time" values `final_duration =
current_session["end_time"] - prev["time"]` computed when a session is closed
(source lines 279 and 306), collected before their `> 0` guard.  Of the
session state only `end_time` influences these values, so only it is
tracked. -/
def close_deltas_loop (t : Rat) (endTime : Rat) (prev : Heartbeat) :
    List Heartbeat → List Rat
  | [] => [endTime - prev.time]
  | current :: rest2 =>
      if current.time - prev.time ≤ t then
        close_deltas_loop t current.time current rest2
      else
        (endTime - prev.time) :: close_deltas_loop t current.time current rest2

/-- All close-step remaining-time values computed by `get_coding_durations`. -/
def close_deltas (t : Rat) : List Heartbeat → List Rat
  | [] => []
  | x :: xs => close_deltas_loop t x.time x xs

/-- Variant of the reconstruction loop with the two close-time attribution
steps (source lines 278–283 and 305–308) deleted, used to show that the close
step never contributes duration. -/
def coding_durations_loop_no_close (t : Rat) (current_session : Session)
    (prev : Heartbeat) (rest : List Heartbeat) (acc : List Session) : List Session :=
  match rest with
  | [] => acc ++ [current_session]
  | current :: rest2 =>
      let time_diff := current.time - prev.time
      if time_diff ≤ t then
        let s := { current_session with
                     end_time := current.time
                     duration := current.time - current_session.start_time }
        let s := if time_diff > 0 then update_activity_duration s prev time_diff else s
        let s := { s with line_changes :=
                    { additions := s.line_changes.additions + current.line_additions.getD 0
                      deletions := s.line_changes.deletions + current.line_deletions.getD 0 } }
        coding_durations_loop_no_close t s current rest2 acc
      else
        let ns := newSession current (current.line_additions.getD 0)
          (current.line_deletions.getD 0)
        let ns := update_activity_duration ns current 0
        coding_durations_loop_no_close t ns current rest2 (acc ++ [current_session])

/-- Reconstruction with close-time attribution removed. -/
def get_coding_durations_no_close (t : Rat) (data : List Heartbeat) : List Session :=
  match data with
  | [] => []
  | first :: rest =>
      let s := newSession first 0 0
      let s := update_activity_duration s first 0
      coding_durations_loop_no_close t s first rest []

theorem close_deltas_loop_zero (t : Rat) :
    ∀ (rest : List Heartbeat) (prev : Heartbeat),
      ∀ d ∈ close_deltas_loop t prev.time prev rest, d = 0 := by
  intro rest
  induction rest with
  | nil =>
      intro prev d hd
      unfold close_deltas_loop at hd
      simp only [List.mem_singleton] at hd
      subst hd
      exact sub_self _
  | cons current rest2 ih =>
      intro prev d hd
      unfold close_deltas_loop at hd
      by_cases h : current.time - prev.time ≤ t
      · rw [if_pos h] at hd
        exact ih current d hd
      · rw [if_neg h] at hd
        rcases List.mem_cons.mp hd with h1 | h1
        · subst h1; exact sub_self _
        · exact ih current d h1

theorem coding_durations_loop_eq_no_close (t : Rat) :
    ∀ (rest : List Heartbeat) (prev : Heartbeat) (s : Session) (acc : List Session),
      s.end_time = prev.time →
      coding_durations_loop t s prev rest acc
        = coding_durations_loop_no_close t s prev rest acc := by
  intro rest
  induction rest with
  | nil =>
      intro prev s acc hend
      unfold coding_durations_loop coding_durations_loop_no_close
      rw [hend]
      simp [sub_self, lt_irrefl]
  | cons current rest2 ih =>
      intro prev s acc hend
      unfold coding_durations_loop coding_durations_loop_no_close
      by_cases h : current.time - prev.time ≤ t
      · rw [if_pos h, if_pos h]
        apply ih
        split <;> rfl
      · rw [if_neg h, if_neg h, hend]
        simp only [sub_self, gt_iff_lt, lt_irrefl, if_false]
        exact ih current _ (acc ++ [s]) rfl

/-- C9: in `get_coding_durations` the session's `end_time` always equals the
time of the last event merged into it, so the remaining time computed when a
session is closed is always exactly zero and the close step never attributes
duration to any dimension.  First conjunct: every computed close-step
remaining time is zero.  Second conjunct: the reconstruction equals the
variant with both close-time attribution steps deleted, so all positive
dimension durations come exclusively from in-threshold merge gaps. -/
theorem close_step_never_adds_duration (merge_threshold : Rat) (data : List Heartbeat) :
    (∀ d ∈ close_deltas merge_threshold data, d = 0) ∧
    get_coding_durations merge_threshold data
      = get_coding_durations_no_close merge_threshold data := by
  constructor
  · intro d hd
    cases data with
    | nil => simp [close_deltas] at hd
    | cons first rest => exact close_deltas_loop_zero merge_threshold rest first d hd
  · cases data with
    | nil => rfl
    | cons first rest =>
        unfold get_coding_durations get_coding_durations_no_close
        exact coding_durations_loop_eq_no_close merge_threshold rest first _ [] rfl

/-- Closed instance of the close-step theorem: on two events separated by an
over-threshold gap both computed close deltas are zero, and on a lone event
the reconstruction agrees with the close-free variant. -/
theorem close_step_never_adds_duration_witness :
    ((0 : Rat) ∈ close_deltas 300 [a_py_heartbeat 0, a_py_heartbeat 1000] ∧ (0 : Rat) = 0) ∧
    get_coding_durations 300 [a_py_heartbeat 0]
      = get_coding_durations_no_close 300 [a_py_heartbeat 0] := by
  have hc : close_deltas 300 [a_py_heartbeat 0, a_py_heartbeat 1000] = [0, 0] := by
    norm_num [close_deltas, close_deltas_loop, a_py_heartbeat]
  have hm : (0 : Rat) ∈ close_deltas 300 [a_py_heartbeat 0, a_py_heartbeat 1000] := by
    rw [hc]; simp
  exact ⟨⟨hm, (close_step_never_adds_duration 300
      [a_py_heartbeat 0, a_py_heartbeat 1000]).1 0 hm⟩,
    (close_step_never_adds_duration 300 [a_py_heartbeat 0]).2⟩

theorem coding_durations_loop_line_changes_all_merge (t : Rat) :
    ∀ (rest : List Heartbeat) (prev : Heartbeat) (s : Session) (acc : List Session),
      List.Chain' (fun a b => b.time - a.time ≤ t) (prev :: rest) →
      (coding_durations_loop t s prev rest acc).map (fun x => x.line_changes)
        = acc.map (fun x => x.line_changes)
          ++ [⟨s.line_changes.additions + (rest.map (fun h => h.line_additions.getD 0)).sum,
               s.line_changes.deletions + (rest.map (fun h => h.line_deletions.getD 0)).sum⟩] := by
  intro rest
  induction rest with
  | nil =>
      intro prev s acc hch
      unfold coding_durations_loop
      simp [apply_ite (fun x : Session => x.line_changes),
        update_activity_duration_line_changes]
  | cons current rest2 ih =>
      intro prev s acc hch
      rcases List.chain'_cons.mp hch with ⟨hgap, hch2⟩
      unfold coding_durations_loop
      rw [if_pos hgap]
      rw [ih current _ acc hch2]
      simp [Nat.add_assoc]
      refine ⟨?_, ?_⟩ <;> split <;> rfl

/-- Heartbeat at time `t` carrying only line-change counters, used to state
the line-change seeding claims. -/
def line_heartbeat (t : Rat) (adds dels : Nat) : Heartbeat :=
  { time := t, entity := none, type := none, project := none,
    language := none, category := none,
    line_additions := some adds, line_deletions := some dels }

/-- C10: the first session of a run is initialized with zero line-change
counters, so event 0's own `line_additions`/`line_deletions` are never
counted, while a session started after an over-threshold gap seeds its
counters from the starting event's own values.  First conjunct: when every
gap merges, the single produced session's counters are the sums over all
events except the first.  Second conjunct: after an over-threshold gap the
first session keeps `(0, 0)` and the second session carries the starting
event's own counters. -/
theorem first_session_line_changes_seeding :
    (∀ (merge_threshold : Rat) (x : Heartbeat) (xs : List Heartbeat),
      List.Chain' (fun a b => b.time - a.time ≤ merge_threshold) (x :: xs) →
      (get_coding_durations merge_threshold (x :: xs)).map (fun s => s.line_changes)
        = [⟨(xs.map (fun h => h.line_additions.getD 0)).sum,
            (xs.map (fun h => h.line_deletions.getD 0)).sum⟩]) ∧
    (∀ (merge_threshold : Rat) (a b : Heartbeat),
      ¬ b.time - a.time ≤ merge_threshold →
      (get_coding_durations merge_threshold [a, b]).map (fun s => s.line_changes)
        = [⟨0, 0⟩, ⟨b.line_additions.getD 0, b.line_deletions.getD 0⟩]) := by
  constructor
  · intro t x xs hch
    unfold get_coding_durations
    rw [coding_durations_loop_line_changes_all_merge t xs x _ [] hch]
    simp [update_activity_duration_line_changes, newSession]
  · intro t a b h
    unfold get_coding_durations coding_durations_loop
    rw [if_neg h]
    simp only [update_activity_duration_end_time, newSession, sub_self, gt_iff_lt,
      lt_irrefl, if_false]
    unfold coding_durations_loop
    simp only [update_activity_duration_end_time, newSession, sub_self, gt_iff_lt,
      lt_irrefl, if_false]
    simp [update_activity_duration_line_changes, newSession]

/-- Closed instance of the seeding theorem: with all line counters present on
both events, an in-threshold run drops the first event's counters, and an
over-threshold gap seeds the new session from its starting event. -/
theorem first_session_line_changes_seeding_witness :
    ((get_coding_durations 300 [line_heartbeat 0 5 4, line_heartbeat 100 2 1]).map
        (fun s => s.line_changes) = [⟨2, 1⟩]) ∧
    ((get_coding_durations 300 [line_heartbeat 0 5 4, line_heartbeat 1000 7 9]).map
        (fun s => s.line_changes) = [⟨0, 0⟩, ⟨7, 9⟩]) := by
  constructor
  · have h := first_session_line_changes_seeding.1 300 (line_heartbeat 0 5 4)
      [line_heartbeat 100 2 1] (by
        rw [List.chain'_pair]
        norm_num [line_heartbeat])
    simpa [line_heartbeat] using h
  · have h := first_session_line_changes_seeding.2 300 (line_heartbeat 0 5 4)
      (line_heartbeat 1000 7 9) (by norm_num [line_heartbeat])
    simpa [line_heartbeat] using h

/-- One entry of `today_status["data"]["categories"]`; `cat["name"]` and
`cat["decimal"]` may be absent. -/
structure CatEntry where
  name : Option String
  decimal : Option Rat
  deriving DecidableEq, Repr

/-- One entry of a `languages` list (`name`, `text`, `percent`). -/
structure LangEntry where
  name : Option String
  text : Option String
  percent : Option Rat
  deriving DecidableEq, Repr

/-- The `today_status["data"]` object.  The chained access
`["grand_total"]["decimal"]` is collapsed into one optional rational (absence
of any link raises the same caught-or-uncaught `KeyError`); decimal leaf
values are taken as already numeric. -/
structure TodayData where
  grand_total : Option Rat
  categories : Option (List CatEntry)
  languages : Option (List LangEntry)
  deriving DecidableEq, Repr

/-- One record of the persisted `daily_records` collection, JSON-shaped:
pre-existing store content is arbitrary, so every field the code may read is
optional. -/
structure RecordJson where
  date : Option String
  weekday : Option String
  total_hours : Option Rat
  categories : Option (List (String × Rat))
  languages : Option (List (String × String × Rat))
  deriving DecidableEq, Repr

/-- Python exception kinds that can escape the embedded fragments. -/
inductive PyErr where
  | keyError
  | valueError
  | nameError
  | zeroDivisionError
  deriving DecidableEq, Repr

/-- The `categories` dict comprehension of `save_daily_stats` (source lines
494–497): `cat["name"]` and `cat["decimal"]` are unguarded index accesses, so
a malformed entry raises `KeyError` out of the comprehension. -/
def buildCategories : List CatEntry → Except PyErr (List (String × Rat))
  | [] => .ok []
  | c :: cs =>
      match c.name, c.decimal with
      | some n, some q =>
          match buildCategories cs with
          | .ok rest => .ok ((n, q) :: rest)
          | .error e => .error e
      | _, _ => .error .keyError

/-- The `languages` dict comprehension (source lines 498–502): the filter
reads `lang["text"]` first and drops `"0 secs"` entries without touching the
other keys; kept entries read `name`, `text`, `percent` unguarded. -/
def buildLanguages : List LangEntry → Except PyErr (List (String × String × Rat))
  | [] => .ok []
  | l :: ls =>
      match l.text with
      | none => .error .keyError
      | some t =>
          if t = "0 secs" then buildLanguages ls
          else
            match l.name, l.percent with
            | some n, some p =>
                match buildLanguages ls with
                | .ok rest => .ok ((n, t, p) :: rest)
                | .error e => .error e
            | _, _ => .error .keyError

/-- Construction of today's `daily_stats` record (source lines 490–503);
`today_status["data"]["grand_total"]["decimal"]` is unguarded, so a malformed
today-status raises `KeyError` out of `save_daily_stats`. -/
def build_daily_stats (today weekday : String) (today_status : Option TodayData) :
    Except PyErr RecordJson :=
  match today_status with
  | none => .error .keyError
  | some d =>
      match d.grand_total with
      | none => .error .keyError
      | some tot =>
          match buildCategories (d.categories.getD []) with
          | .error e => .error e
          | .ok cats =>
              match buildLanguages (d.languages.getD []) with
              | .error e => .error e
              | .ok langs =>
                  .ok { date := some today, weekday := some weekday,
                        total_hours := some tot,
                        categories := some cats, languages := some langs }

/-- Result of reading and JSON-parsing the persisted stats file:
`missing` models `FileNotFoundError`, `corrupt` models `JSONDecodeError`, and
`parsed` carries the optional `daily_records` key of a well-parsed document. -/
inductive LoadResult where
  | missing
  | corrupt
  | parsed (daily_records : Option (List RecordJson))
  deriving DecidableEq, Repr

/-- Embedding of the load-or-initialize idiom used both by `save_daily_stats`
(source lines 505–510) and by `get_productivity_analysis` (lines 547–553):
`FileNotFoundError` and `JSONDecodeError` are caught and replaced by
`{"daily_records": []}`, after which the `["daily_records"]` access succeeds;
a well-parsed document without that key raises an uncaught `KeyError` at the
access. -/
def loadDailyRecords : LoadResult → Except PyErr (List RecordJson)
  | .missing => .ok []
  | .corrupt => .ok []
  | .parsed none => .error .keyError
  | .parsed (some rs) => .ok rs

/-- The `next((i for i, record in enumerate(...) if record["date"] == today),
None)` search (source lines 513–520): the generator inspects `record["date"]`
in order and stops at the first match, so a dateless record positioned after
the match is never touched, while one before it raises `KeyError`. -/
def findTodayIdx (today : String) : List RecordJson → Except PyErr (Option Nat)
  | [] => .ok none
  | r :: rs =>
      match r.date with
      | none => .error .keyError
      | some d =>
          if d = today then .ok (some 0)
          else
            match findTodayIdx today rs with
            | .ok none => .ok none
            | .ok (some i) => .ok (some (i + 1))
            | .error e => .error e

/-- The upsert of `save_daily_stats` (source lines 512–525): replace in place
at the found index, else append. -/
def upsertDailyRecord (records : List RecordJson) (today : String) (stats : RecordJson) :
    Except PyErr (List RecordJson) :=
  match findTodayIdx today records with
  | .error e => .error e
  | .ok (some i) => .ok (records.set i stats)
  | .ok none => .ok (records ++ [stats])

/-- Embedding of `WakaTimeClient.save_daily_stats` (source lines 476–529):
build today's record, load-or-initialize the store, upsert; the result is the
collection written back to disk. -/
def save_daily_stats (store : LoadResult) (today weekday : String)
    (today_status : Option TodayData) : Except PyErr (List RecordJson) :=
  match build_daily_stats today weekday today_status with
  | .error e => .error e
  | .ok stats =>
      match loadDailyRecords store with
      | .error e => .error e
      | .ok records => upsertDailyRecord records today stats

theorem upsert_cons_hit {r : RecordJson} {rs : List RecordJson} {today : String}
    {stats : RecordJson} (h : r.date = some today) :
    upsertDailyRecord (r :: rs) today stats = .ok (stats :: rs) := by
  unfold upsertDailyRecord findTodayIdx
  rw [h]
  simp

theorem upsert_cons_miss {r : RecordJson} {rs : List RecordJson} {today d : String}
    {stats : RecordJson} (h : r.date = some d) (hne : d ≠ today) :
    upsertDailyRecord (r :: rs) today stats
      = (upsertDailyRecord rs today stats).map (fun l => r :: l) := by
  unfold upsertDailyRecord
  have hf : findTodayIdx today (r :: rs)
      = match findTodayIdx today rs with
        | .ok none => .ok none
        | .ok (some i) => .ok (some (i + 1))
        | .error e => .error e := by
    simp [findTodayIdx, h, hne]
  rw [hf]
  cases findTodayIdx today rs with
  | error e => rfl
  | ok o =>
      cases o with
      | none => rfl
      | some i => simp [List.set, Except.map]

/-- C5: the Daily Stats Recorder upsert preserves date uniqueness.  Starting
from a collection whose records all carry a date, pairwise distinct, upserting
today's record succeeds and: the result is still pairwise date-distinct; if
today's date was present the length is unchanged, the new record is stored and
every other surviving record is an untouched old record of a different date;
if today's date was absent the record is appended. -/
theorem upsert_preserves_date_uniqueness
    (records : List RecordJson) (today : String) (stats : RecordJson)
    (hdates : ∀ r ∈ records, r.date.isSome)
    (huniq : records.Pairwise (fun a b => a.date ≠ b.date))
    (hstats : stats.date = some today) :
    ∃ result, upsertDailyRecord records today stats = .ok result ∧
      result.Pairwise (fun a b => a.date ≠ b.date) ∧
      ((∃ r ∈ records, r.date = some today) →
          result.length = records.length ∧ stats ∈ result ∧
          ∀ r ∈ result, r = stats ∨ (r ∈ records ∧ r.date ≠ some today)) ∧
      ((∀ r ∈ records, r.date ≠ some today) → result = records ++ [stats]) := by
  induction records with
  | nil =>
      refine ⟨[stats], rfl, ?_, ?_, ?_⟩
      · simp
      · intro h; simp at h
      · intro h; rfl
  | cons r rs ih =>
      have hr : r.date.isSome := hdates r (List.mem_cons_self r rs)
      obtain ⟨d, hd⟩ := Option.isSome_iff_exists.mp hr
      by_cases hdt : d = today
      · subst hdt
        refine ⟨stats :: rs, upsert_cons_hit hd, ?_, ?_, ?_⟩
        · rw [List.pairwise_cons]
          refine ⟨?_, (List.pairwise_cons.mp huniq).2⟩
          intro b hb
          rw [hstats, ← hd]
          exact (List.pairwise_cons.mp huniq).1 b hb
        · intro _
          refine ⟨by simp, List.mem_cons_self _ _, ?_⟩
          intro x hx
          rcases List.mem_cons.mp hx with h1 | h1
          · exact Or.inl h1
          · refine Or.inr ⟨List.mem_cons_of_mem _ h1, ?_⟩
            rw [← hd]
            exact ((List.pairwise_cons.mp huniq).1 x h1).symm
        · intro h
          exact absurd hd (h r (List.mem_cons_self r rs))
      · obtain ⟨res, heq, hpw, hhit, hmiss⟩ :=
          ih (fun x hx => hdates x (List.mem_cons_of_mem r hx))
            (List.pairwise_cons.mp huniq).2
        have hmem : ∀ x ∈ res, x = stats ∨ x ∈ rs := by
          by_cases hex : ∃ x ∈ rs, x.date = some today
          · intro x hx
            rcases (hhit hex).2.2 x hx with h1 | h1
            · exact Or.inl h1
            · exact Or.inr h1.1
          · push_neg at hex
            rw [hmiss hex]
            intro x hx
            rcases List.mem_append.mp hx with h1 | h1
            · exact Or.inr h1
            · simp only [List.mem_singleton] at h1
              exact Or.inl h1
        refine ⟨r :: res, ?_, ?_, ?_, ?_⟩
        · rw [upsert_cons_miss hd hdt, heq]
          rfl
        · rw [List.pairwise_cons]
          refine ⟨?_, hpw⟩
          intro b hb
          rcases hmem b hb with h1 | h1
          · subst h1
            rw [hd, hstats]
            intro hcc
            exact hdt (Option.some_inj.mp hcc)
          · exact (List.pairwise_cons.mp huniq).1 b h1
        · intro hex
          obtain ⟨x, hx, hxd⟩ := hex
          rcases List.mem_cons.mp hx with h1 | h1
          · subst h1
            rw [hd] at hxd
            exact absurd (Option.some_inj.mp hxd) hdt
          · obtain ⟨hlen, hsm, hall⟩ := hhit ⟨x, h1, hxd⟩
            refine ⟨by simp [hlen], List.mem_cons_of_mem _ hsm, ?_⟩
            intro y hy
            rcases List.mem_cons.mp hy with h2 | h2
            · subst h2
              refine Or.inr ⟨List.mem_cons_self _ _, ?_⟩
              rw [hd]
              intro hcc
              exact hdt (Option.some_inj.mp hcc)
            · rcases hall y h2 with h3 | h3
              · exact Or.inl h3
              · exact Or.inr ⟨List.mem_cons_of_mem _ h3.1, h3.2⟩
        · intro h
          rw [hmiss (fun x hx => h x (List.mem_cons_of_mem r hx))]
          rfl

/-- Concrete record of the spec scenario for the Daily Stats Recorder. -/
def monday_record (h : Rat) : RecordJson :=
  { date := some "2024-01-01", weekday := some "Monday", total_hours := some h,
    categories := none, languages := none }

/-- Closed instance of the upsert theorem on the spec scenario: the collection
holding the 2024-01-01 record with 5 hours, upserted with a 7-hour record for
the same date. -/
theorem upsert_preserves_date_uniqueness_witness :
    ∃ result,
      upsertDailyRecord [monday_record 5] "2024-01-01" (monday_record 7) = .ok result ∧
      result.Pairwise (fun a b => a.date ≠ b.date) ∧
      ((∃ r ∈ [monday_record 5], r.date = some "2024-01-01") →
          result.length = [monday_record 5].length ∧ monday_record 7 ∈ result ∧
          ∀ r ∈ result, r = monday_record 7 ∨
            (r ∈ [monday_record 5] ∧ r.date ≠ some "2024-01-01")) ∧
      ((∀ r ∈ [monday_record 5], r.date ≠ some "2024-01-01") →
          result = [monday_record 5] ++ [monday_record 7]) :=
  upsert_preserves_date_uniqueness [monday_record 5] "2024-01-01" (monday_record 7)
    (by simp [monday_record]) (by simp) rfl

/-- C6: a missing or unparsable persisted store is treated as the empty
collection by the shared load-or-initialize fragment used by both
`save_daily_stats` and `get_productivity_analysis`, and saving then proceeds
to produce a one-record collection instead of raising. -/
theorem persistence_failure_not_fatal (today weekday : String) (t : Rat) :
    loadDailyRecords .missing = .ok [] ∧
    loadDailyRecords .corrupt = .ok [] ∧
    save_daily_stats .missing today weekday
        (some { grand_total := some t, categories := none, languages := none })
      = .ok [{ date := some today, weekday := some weekday, total_hours := some t,
               categories := some [], languages := some [] }] ∧
    save_daily_stats .corrupt today weekday
        (some { grand_total := some t, categories := none, languages := none })
      = .ok [{ date := some today, weekday := some weekday, total_hours := some t,
               categories := some [], languages := some [] }] :=
  ⟨rfl, rfl, rfl, rfl⟩

/-- One per-day entry of the range-summaries response
(`week_summaries["data"]`), with the chained accesses `["range"]["date"]` and
`["grand_total"]["decimal"]` each collapsed into one optional field. -/
structure DayEntry where
  range_date : Option String
  grand_total : Option Rat
  deriving DecidableEq, Repr

/-- The per-day display loop of the current-week section (source lines
578–586): each day is handled inside a `try` catching `KeyError`/`ValueError`
with `continue`, so a day missing `range.date` or `grand_total.decimal` is
skipped; this is the list of totals of the successfully parsed days. -/
def parsedDayTotals (days : List DayEntry) : List Rat :=
  days.filterMap (fun d =>
    match d.range_date, d.grand_total with
    | some _, some h => some h
    | _, _ => none)

/-- The `daily_totals` list comprehension (source lines 589–592): it reads
`day["grand_total"]["decimal"]` of every entry with no per-day guard, so a
single missing key fails the whole comprehension with `KeyError`. -/
def dailyTotals : List DayEntry → Option (List Rat)
  | [] => some []
  | d :: ds =>
      match d.grand_total, dailyTotals ds with
      | some h, some ts => some (h :: ts)
      | _, _ => none

/-- The 7-day average the section reports (source lines 593–595): `none` when
the comprehension failed (its `KeyError` is swallowed by the section's
`except (KeyError, TypeError)` handler, so no average line is printed) or when
`daily_totals` is empty. -/
def weekAvgReported (days : List DayEntry) : Option Rat :=
  match dailyTotals days with
  | none => none
  | some ts => if ts = [] then none else some (ts.sum / (ts.length : Rat))

/-- Well-formed day entry of the counterexample: date present, 2 hours. -/
def day_ok : DayEntry := { range_date := some "2024-01-01", grand_total := some 2 }

/-- Malformed day entry of the counterexample: `range.date` missing, 4 hours. -/
def day_no_date : DayEntry := { range_date := none, grand_total := some 4 }

theorem dailyTotals_all_some :
    ∀ (days : List DayEntry), (∀ d ∈ days, d.grand_total.isSome) →
      dailyTotals days = some (days.filterMap (fun d => d.grand_total)) ∧
      (days.filterMap (fun d => d.grand_total)).length = days.length := by
  intro days
  induction days with
  | nil => intro _; exact ⟨rfl, rfl⟩
  | cons d ds ih =>
      intro h
      have hd : d.grand_total.isSome := h d (List.mem_cons_self d ds)
      obtain ⟨q, hq⟩ := Option.isSome_iff_exists.mp hd
      obtain ⟨h1, h2⟩ := ih (fun x hx => h x (List.mem_cons_of_mem d hx))
      constructor
      · unfold dailyTotals
        rw [hq, h1]
        simp [List.filterMap_cons, hq]
      · simp [List.filterMap_cons, hq, h2]

theorem dailyTotals_of_missing :
    ∀ (days : List DayEntry), (∃ d ∈ days, d.grand_total = none) →
      dailyTotals days = none := by
  intro days
  induction days with
  | nil => intro h; simp at h
  | cons d ds ih =>
      intro h
      unfold dailyTotals
      rcases h with ⟨x, hx, hxn⟩
      rcases List.mem_cons.mp hx with h1 | h1
      · subst h1
        rw [hxn]
      · rw [ih ⟨x, h1, hxn⟩]
        cases d.grand_total <;> rfl

/-- C7 counterexample: for the two-day input `[day_ok, day_no_date]` the
malformed day is skipped by the per-day display loop (parsed totals `[2]`),
yet the reported 7-day average is `3` — the mean over 2 and 4 — which differs
from the arithmetic mean of the successfully-parsed days' totals, `2`.  This
refutes the claim that the reported average equals the mean of exactly the
successfully-parsed days. -/
theorem week_average_counterexample :
    parsedDayTotals [day_ok, day_no_date] = [2] ∧
    weekAvgReported [day_ok, day_no_date] = some 3 ∧
    weekAvgReported [day_ok, day_no_date]
      ≠ some ((parsedDayTotals [day_ok, day_no_date]).sum
          / ((parsedDayTotals [day_ok, day_no_date]).length : Rat)) := by
  refine ⟨rfl, ?_, ?_⟩
  · norm_num [weekAvgReported, dailyTotals, day_ok, day_no_date]
    intro hc
    exact absurd hc (by simp)
  · norm_num [weekAvgReported, dailyTotals, parsedDayTotals, day_ok, day_no_date,
      List.filterMap_cons]

/-- C7 amended: a day entry with malformed data is skipped in the per-day
listing and is not fatal, but the reported 7-day average is the arithmetic
mean of ALL day entries' `grand_total.decimal` values: when every entry
carries that key the reported average divides by the number of all days (so a
day missing only `range.date` still counts), and when any entry lacks it the
section reports no average at all instead of averaging the parsed days. -/
theorem week_average_amended (days : List DayEntry) :
    ((∀ d ∈ days, d.grand_total.isSome) → days ≠ [] →
      weekAvgReported days
        = some ((days.filterMap (fun d => d.grand_total)).sum / (days.length : Rat))) ∧
    ((∃ d ∈ days, d.grand_total = none) → weekAvgReported days = none) := by
  constructor
  · intro hall hne
    obtain ⟨h1, h2⟩ := dailyTotals_all_some days hall
    have hni : days.filterMap (fun d => d.grand_total) ≠ [] := by
      intro hc
      apply hne
      rw [hc] at h2
      have h0 : days.length = 0 := by simpa using h2.symm
      exact List.length_eq_zero.mp h0
    simp only [weekAvgReported, h1, if_neg hni, h2]
  · intro hex
    simp only [weekAvgReported, dailyTotals_of_missing days hex]

/-- Closed instance of the amended week-average theorem: on
`[day_ok, day_no_date]` every entry carries a grand total and the average is
`(2 + 4) / 2 = 3`; on a single day lacking the grand total no average is
reported. -/
theorem week_average_amended_witness :
    weekAvgReported [day_ok, day_no_date] = some ((2 + 4) / 2 : Rat) ∧
    weekAvgReported [{ range_date := some "2024-01-02", grand_total := none }] = none := by
  constructor
  · have h := (week_average_amended [day_ok, day_no_date]).1
      (by intro d hd
          rcases List.mem_cons.mp hd with h1 | h1
          · subst h1; rfl
          · simp only [List.mem_singleton] at h1
            subst h1; rfl)
      (by simp)
    rw [h]
    norm_num [day_ok, day_no_date, List.filterMap_cons]
  · exact (week_average_amended _).2 ⟨_, List.mem_singleton.mpr rfl, rfl⟩

/-- One per-day entry of `week_stats["data"]["days"]`. -/
structure DayJson where
  date : Option String
  grand_total : Option Rat
  deriving DecidableEq, Repr

/-- The `week_stats["data"]` object. -/
structure WeekStatsData where
  languages : Option (List LangEntry)
  days : Option (List DayJson)
  deriving DecidableEq, Repr

/-- Everything `get_productivity_analysis` consumes: the live API aggregates
(with the `"data"` keys of `today_status`, `week_summaries` and `week_stats`
as optional fields) plus the persisted store and the outputs of the external
date collaborators (today's date string and weekday name, current ISO week
number). -/
structure AnalyzerInputs where
  today_status : Option TodayData
  week_summaries_data : Option (List DayEntry)
  week_stats_data : Option WeekStatsData
  store : LoadResult
  today_date : String
  today_weekday : String
  current_week : Nat
  deriving Repr

/-- The computed values of the analyzer's report sections; `none` for a
section (or a value inside it) means it degraded to an explicit
no-data/error message. -/
structure Report where
  today : Option (Rat × Option (List (String × Rat)))
  week_avg : Option Rat
  week_perf : Option Rat
  historical : Option (Rat × Option Rat × List RecordJson)
  weekly_averages : List (Nat × Rat)
  languages_used : Option (List (String × String × Rat))
  alt_week : Option (List (String × Rat))
  deriving Repr

/-- Today section (source lines 558–571): the chained
`today_status["data"]["grand_total"]["decimal"]` lookup is inside the
section's `try`, so on malformed input the section degrades to "No activity
recorded today".  The category entries use `.get` defaults and cannot fail. -/
def todaySection (today_status : Option TodayData) :
    Option (Rat × Option (List (String × Rat))) :=
  match today_status with
  | none => none
  | some d =>
      match d.grand_total with
      | none => none
      | some tot =>
          some (tot, d.categories.map (fun cs =>
            cs.map (fun c => (c.name.getD "Unknown", c.decimal.getD 0))))

/-- The state of the local variable `today_total` after the today section:
`none` models the name never having been bound because the section's lookup
raised before the assignment completed — a later `if today_total:` then
raises `NameError`, which no handler in the function catches. -/
def todayTotalVar (today_status : Option TodayData) : Option Rat :=
  match today_status with
  | none => none
  | some d => d.grand_total

/-- Current-week section (source lines 574–603), returning the reported
7-day average and today-vs-average percentage.  The section handler catches
only `KeyError`/`TypeError`: the failure of the `daily_totals` comprehension
is swallowed (section degrades, no average reported), but `if today_total:`
on an unbound name raises `NameError`, and `float(today_total) / week_avg`
with a zero average raises `ZeroDivisionError`; neither is caught. -/
def currentWeekSection (today_total : Option Rat)
    (week_summaries_data : Option (List DayEntry)) :
    Except PyErr (Option Rat × Option Rat) :=
  match week_summaries_data with
  | none => .ok (none, none)
  | some days =>
      match dailyTotals days with
      | none => .ok (none, none)
      | some ts =>
          if ts = [] then .ok (none, none)
          else
            let week_avg := ts.sum / (ts.length : Rat)
            match today_total with
            | none => .error .nameError
            | some v =>
                if v = 0 then .ok (some week_avg, none)
                else if week_avg = 0 then .error .zeroDivisionError
                else .ok (some week_avg, some (v / week_avg * 100))

/-- The `[r for r in records if r["weekday"] == today_weekday]` comprehension
(source line 607): the `r["weekday"]` access is unguarded and the
comprehension runs outside any `try`, so one record without a weekday raises
`KeyError` out of `get_productivity_analysis`. -/
def filterWeekday (today_weekday : String) :
    List RecordJson → Except PyErr (List RecordJson)
  | [] => .ok []
  | r :: rs =>
      match r.weekday with
      | none => .error .keyError
      | some w =>
          match filterWeekday today_weekday rs with
          | .error e => .error e
          | .ok rest => .ok (if w = today_weekday then r :: rest else rest)

/-- The `sum(r["total_hours"] for r in weekday_records)` generator (source
lines 610–611): unguarded accesses, evaluated in order. -/
def recordTotals : List RecordJson → Except PyErr (List Rat)
  | [] => .ok []
  | r :: rs =>
      match r.total_hours with
      | none => .error .keyError
      | some h =>
          match recordTotals rs with
          | .error e => .error e
          | .ok rest => .ok (h :: rest)

/-- Key extraction for `sorted(weekday_records, key=lambda x: x["date"],
reverse=True)` (source lines 620–622): CPython evaluates the key of every
element in list order before sorting, raising `KeyError` on a dateless
record. -/
def keyRecordsByDate : List RecordJson → Except PyErr (List (String × RecordJson))
  | [] => .ok []
  | r :: rs =>
      match r.date with
      | none => .error .keyError
      | some d =>
          match keyRecordsByDate rs with
          | .error e => .error e
          | .ok rest => .ok ((d, r) :: rest)

/-- Stable descending insertion by string key: an element moves in front of
another only when its key is strictly greater, so equal keys keep their
original order, as Python's stable sort does. -/
def insertByDateDesc (x : String × RecordJson) :
    List (String × RecordJson) → List (String × RecordJson)
  | [] => [x]
  | y :: ys => if y.1 < x.1 then x :: y :: ys else y :: insertByDateDesc x ys

/-- `sorted(weekday_records, key=lambda x: x["date"], reverse=True)`. -/
def sortRecordsByDateDesc (rs : List RecordJson) : Except PyErr (List RecordJson) :=
  match keyRecordsByDate rs with
  | .error e => .error e
  | .ok keyed => .ok ((keyed.foldl (fun acc x => insertByDateDesc x acc) []).map
      (fun p => p.2))

/-- Historical same-weekday section (source lines 605–623): it has no
enclosing `try`.  Filter the persisted records by weekday, average their
`total_hours`, compare today's total against the average (`if today_total:`
raises `NameError` when the variable is unbound; an all-zero average with a
truthy today total raises `ZeroDivisionError`), then list the four most
recent matching records.  Every failure escapes the analyzer. -/
def historicalSection (today_total : Option Rat) (today_weekday : String)
    (records : List RecordJson) :
    Except PyErr (Option (Rat × Option Rat × List RecordJson)) :=
  match filterWeekday today_weekday records with
  | .error e => .error e
  | .ok weekday_records =>
      if weekday_records = [] then .ok none
      else
        match recordTotals weekday_records with
        | .error e => .error e
        | .ok ts =>
            let avg_hours := ts.sum / (ts.length : Rat)
            match today_total with
            | none => .error .nameError
            | some v =>
                if v = 0 then
                  match sortRecordsByDateDesc weekday_records with
                  | .error e => .error e
                  | .ok sorted => .ok (some (avg_hours, none, sorted.take 4))
                else if avg_hours = 0 then .error .zeroDivisionError
                else
                  match sortRecordsByDateDesc weekday_records with
                  | .error e => .error e
                  | .ok sorted =>
                      .ok (some (avg_hours, some (v / avg_hours * 100), sorted.take 4))

/-- Grouping of `weekly_totals` (source lines 630–635): Python dict keyed by
week number, key insertion order preserved, per-key value list appended. -/
def addToGroup (groups : List (Nat × List Rat)) (w : Nat) (h : Rat) :
    List (Nat × List Rat) :=
  if groups.any (fun p => p.1 == w) then
    groups.map (fun p => if p.1 == w then (p.1, p.2 ++ [h]) else p)
  else groups ++ [(w, [h])]

/-- The grouping loop (source lines 631–635): per record, the unguarded
`record["date"]` lookup, the `strptime` parse inside `get_week_number`
(modelled by the collaborator `weekOf`; `none` means `ValueError`) and the
unguarded `record["total_hours"]` lookup; outside any `try`. -/
def groupWeeks (weekOf : String → Option Nat) :
    List RecordJson → List (Nat × List Rat) → Except PyErr (List (Nat × List Rat))
  | [], groups => .ok groups
  | r :: rs, groups =>
      match r.date with
      | none => .error .keyError
      | some d =>
          match weekOf d with
          | none => .error .valueError
          | some w =>
              match r.total_hours with
              | none => .error .keyError
              | some h => groupWeeks weekOf rs (addToGroup groups w h)

/-- Descending insertion for `sorted(weekly_totals.keys(), reverse=True)`. -/
def insertNatDesc (x : Nat) : List Nat → List Nat
  | [] => [x]
  | y :: ys => if y < x then x :: y :: ys else y :: insertNatDesc x ys

/-- Weekly-trend section (source lines 626–642): no enclosing `try`; the mean
daily hours of the four most recent ISO week numbers, descending.  (The
"Current Week" label chosen by comparing against today's week number is
presentation only.) -/
def weeklyTrendsSection (weekOf : String → Option Nat) (records : List RecordJson) :
    Except PyErr (List (Nat × Rat)) :=
  match groupWeeks weekOf records [] with
  | .error e => .error e
  | .ok groups =>
      let weeks := ((groups.map (fun p => p.1)).foldl
        (fun acc w => insertNatDesc w acc) []).take 4
      .ok (weeks.map (fun w =>
        let ts := (groups.lookup w).getD []
        (w, ts.sum / (ts.length : Rat))))

/-- Language-breakdown section (source lines 645–654): wrapped in `try
(KeyError, TypeError)`, so a missing `week_stats["data"]` degrades; a missing
`languages` key just skips the block; kept entries use `.get` defaults and
cannot fail; top five in API order, not re-sorted. -/
def languagesSection (week_stats_data : Option WeekStatsData) :
    Option (List (String × String × Rat)) :=
  match week_stats_data with
  | none => none
  | some d =>
      match d.languages with
      | none => none
      | some ls => some ((ls.take 5).map (fun l =>
          (l.name.getD "Unknown", l.text.getD "0 hrs", l.percent.getD 0)))

/-- Key extraction for `sorted(days, key=lambda x: x["date"])` in the
alternate week section; a missing `date` raises `KeyError`, caught by that
section's handler. -/
def keyDaysByDate : List DayJson → Except PyErr (List (String × DayJson))
  | [] => .ok []
  | d :: ds =>
      match d.date with
      | none => .error .keyError
      | some k =>
          match keyDaysByDate ds with
          | .error e => .error e
          | .ok rest => .ok ((k, d) :: rest)

/-- Stable ascending insertion by string key. -/
def insertByDateAsc (x : String × DayJson) :
    List (String × DayJson) → List (String × DayJson)
  | [] => [x]
  | y :: ys => if x.1 < y.1 then x :: y :: ys else y :: insertByDateAsc x ys

/-- Alternate current-week section (source lines 657–680): wrapped in `try
(KeyError, TypeError)`; missing `data`/`days` keys degrade to messages; the
sort key access can raise the caught `KeyError`; each displayed day then
reads its grand total behind presence checks, defaulting to 0.00, and the
per-day `except Exception` swallows anything else. -/
def altWeekSection (week_stats_data : Option WeekStatsData) :
    Option (List (String × Rat)) :=
  match week_stats_data with
  | none => none
  | some d =>
      match d.days with
      | none => none
      | some days =>
          if days = [] then some []
          else
            match keyDaysByDate days with
            | .error _ => none
            | .ok keyed =>
                some ((keyed.foldl (fun acc x => insertByDateAsc x acc) []).map
                  (fun p => (p.1, p.2.grand_total.getD 0)))

/-- Embedding of `WakaTimeClient.get_productivity_analysis` (source lines
531–680).  The live fetches are inputs.  `save_daily_stats` runs first (line
544) and its uncaught exceptions escape before any section; the records used
by the historical sections are the just-written collection read back (lines
547–553; the write-then-read round trip is taken as faithful).  Then the
report sections run in order; the today, current-week, language and
alternate-week sections sit in their own `except (KeyError, TypeError)`
handlers, while the historical-weekday and weekly-trend sections are bare, so
their errors — and the uncaught `NameError`/`ZeroDivisionError` of the
current-week section — abort the analyzer. -/
def get_productivity_analysis (weekOf : String → Option Nat) (inp : AnalyzerInputs) :
    Except PyErr Report :=
  match save_daily_stats inp.store inp.today_date inp.today_weekday inp.today_status with
  | .error e => .error e
  | .ok records =>
      let today_total := todayTotalVar inp.today_status
      match currentWeekSection today_total inp.week_summaries_data with
      | .error e => .error e
      | .ok wk =>
          match historicalSection today_total inp.today_weekday records with
          | .error e => .error e
          | .ok historical =>
              match weeklyTrendsSection weekOf records with
              | .error e => .error e
              | .ok weekly =>
                  .ok { today := todaySection inp.today_status,
                        week_avg := wk.1, week_perf := wk.2,
                        historical := historical, weekly_averages := weekly,
                        languages_used := languagesSection inp.week_stats_data,
                        alt_week := altWeekSection inp.week_stats_data }

/-- A persisted record missing its `weekday` key (all the analyzer's other
inputs in the counterexample are well-formed). -/
def bad_weekday_record : RecordJson :=
  { date := some "2024-01-01", weekday := none, total_hours := some 5,
    categories := none, languages := none }

/-- Analyzer inputs for the counterexample: everything well-formed except the
one persisted record lacking `weekday`. -/
def counterexample_inputs : AnalyzerInputs :=
  { today_status := some { grand_total := some 0, categories := none, languages := none },
    week_summaries_data := none,
    week_stats_data := none,
    store := .parsed (some [bad_weekday_record]),
    today_date := "2024-01-02",
    today_weekday := "Tuesday",
    current_week := 1 }

/-- C8 counterexample: a persisted record lacking the `weekday` key makes the
historical-weekday section's unguarded `r["weekday"]` comprehension raise
`KeyError` out of `get_productivity_analysis`, aborting the remaining
sections, instead of degrading only that section. -/
theorem analyzer_section_raises_counterexample :
    get_productivity_analysis (fun _ => some 1) counterexample_inputs
      = .error .keyError := rfl

/-- A persisted record the unguarded historical sections can process: weekday
and total present, date present and parseable by the week-number
collaborator. -/
def wellFormedRecord (weekOf : String → Option Nat) (r : RecordJson) : Prop :=
  r.weekday.isSome ∧ r.total_hours.isSome ∧ ∃ d, r.date = some d ∧ (weekOf d).isSome

theorem filterWeekday_ok (wd : String) :
    ∀ (rs : List RecordJson), (∀ r ∈ rs, r.weekday.isSome) →
      ∃ out, filterWeekday wd rs = .ok out ∧ ∀ r ∈ out, r ∈ rs := by
  intro rs
  induction rs with
  | nil => exact fun _ => ⟨[], rfl, by simp⟩
  | cons r rs ih =>
      intro h
      obtain ⟨w, hw⟩ := Option.isSome_iff_exists.mp (h r (List.mem_cons_self r rs))
      obtain ⟨out, hout, hsub⟩ := ih (fun x hx => h x (List.mem_cons_of_mem r hx))
      refine ⟨if w = wd then r :: out else out, ?_, ?_⟩
      · simp only [filterWeekday, hw, hout]
      · by_cases hwd : w = wd
        · simp only [if_pos hwd]
          intro x hx
          rcases List.mem_cons.mp hx with h1 | h1
          · subst h1; exact List.mem_cons_self _ _
          · exact List.mem_cons_of_mem _ (hsub x h1)
        · simp only [if_neg hwd]
          intro x hx
          exact List.mem_cons_of_mem _ (hsub x hx)

theorem recordTotals_ok :
    ∀ (rs : List RecordJson), (∀ r ∈ rs, r.total_hours.isSome) →
      ∃ ts, recordTotals rs = .ok ts := by
  intro rs
  induction rs with
  | nil => exact fun _ => ⟨[], rfl⟩
  | cons r rs ih =>
      intro h
      obtain ⟨v, hv⟩ := Option.isSome_iff_exists.mp (h r (List.mem_cons_self r rs))
      obtain ⟨ts, hts⟩ := ih (fun x hx => h x (List.mem_cons_of_mem r hx))
      exact ⟨v :: ts, by simp only [recordTotals, hv, hts]⟩

theorem keyRecordsByDate_ok :
    ∀ (rs : List RecordJson), (∀ r ∈ rs, r.date.isSome) →
      ∃ ks, keyRecordsByDate rs = .ok ks := by
  intro rs
  induction rs with
  | nil => exact fun _ => ⟨[], rfl⟩
  | cons r rs ih =>
      intro h
      obtain ⟨d, hd⟩ := Option.isSome_iff_exists.mp (h r (List.mem_cons_self r rs))
      obtain ⟨ks, hks⟩ := ih (fun x hx => h x (List.mem_cons_of_mem r hx))
      exact ⟨(d, r) :: ks, by simp only [keyRecordsByDate, hd, hks]⟩

theorem findTodayIdx_ok (today : String) :
    ∀ (rs : List RecordJson), (∀ r ∈ rs, r.date.isSome) →
      ∃ o, findTodayIdx today rs = .ok o := by
  intro rs
  induction rs with
  | nil => exact fun _ => ⟨none, rfl⟩
  | cons r rs ih =>
      intro h
      obtain ⟨d, hd⟩ := Option.isSome_iff_exists.mp (h r (List.mem_cons_self r rs))
      obtain ⟨o, ho⟩ := ih (fun x hx => h x (List.mem_cons_of_mem r hx))
      by_cases hdt : d = today
      · exact ⟨some 0, by simp [findTodayIdx, hd, hdt]⟩
      · cases o with
        | none => exact ⟨none, by simp [findTodayIdx, hd, ho, hdt]⟩
        | some i => exact ⟨some (i + 1), by simp [findTodayIdx, hd, ho, hdt]⟩

theorem upsert_ok_of_dates (rs : List RecordJson) (today : String) (stats : RecordJson)
    (h : ∀ r ∈ rs, r.date.isSome) :
    ∃ out, upsertDailyRecord rs today stats = .ok out ∧
      ∀ r ∈ out, r ∈ rs ∨ r = stats := by
  obtain ⟨o, ho⟩ := findTodayIdx_ok today rs h
  cases o with
  | some i =>
      refine ⟨rs.set i stats, by simp [upsertDailyRecord, ho], ?_⟩
      intro r hr
      exact List.mem_or_eq_of_mem_set hr
  | none =>
      refine ⟨rs ++ [stats], by simp [upsertDailyRecord, ho], ?_⟩
      intro r hr
      rcases List.mem_append.mp hr with h1 | h1
      · exact Or.inl h1
      · simp only [List.mem_singleton] at h1
        exact Or.inr h1

theorem groupWeeks_ok (weekOf : String → Option Nat) :
    ∀ (rs : List RecordJson), (∀ r ∈ rs, wellFormedRecord weekOf r) →
      ∀ groups, ∃ gs, groupWeeks weekOf rs groups = .ok gs := by
  intro rs
  induction rs with
  | nil => exact fun _ groups => ⟨groups, rfl⟩
  | cons r rs ih =>
      intro h groups
      obtain ⟨hw, hth, d, hd, hwk⟩ := h r (List.mem_cons_self r rs)
      obtain ⟨w, hwv⟩ := Option.isSome_iff_exists.mp hwk
      obtain ⟨v, hv⟩ := Option.isSome_iff_exists.mp hth
      obtain ⟨gs, hgs⟩ := ih (fun x hx => h x (List.mem_cons_of_mem r hx))
        (addToGroup groups w v)
      exact ⟨gs, by simp only [groupWeeks, hd, hwv, hv, hgs]⟩

theorem weeklyTrendsSection_ok (weekOf : String → Option Nat) (rs : List RecordJson)
    (h : ∀ r ∈ rs, wellFormedRecord weekOf r) :
    ∃ out, weeklyTrendsSection weekOf rs = .ok out := by
  obtain ⟨gs, hgs⟩ := groupWeeks_ok weekOf rs h []
  have heq : weeklyTrendsSection weekOf rs
      = .ok ((((gs.map (fun p => p.1)).foldl (fun acc w => insertNatDesc w acc) []).take 4).map
          (fun w =>
            (w, ((gs.lookup w).getD []).sum / ((((gs.lookup w).getD []).length : Nat) : Rat)))) := by
    unfold weeklyTrendsSection
    rw [hgs]
  exact ⟨_, heq⟩

theorem currentWeekSection_ok_today_zero (wsd : Option (List DayEntry)) :
    ∃ p, currentWeekSection (some 0) wsd = .ok p := by
  cases wsd with
  | none => exact ⟨(none, none), rfl⟩
  | some days =>
      rcases hdt : dailyTotals days with _ | ts
      · exact ⟨(none, none), by simp [currentWeekSection, hdt]⟩
      · by_cases hts : ts = []
        · exact ⟨(none, none), by simp [currentWeekSection, hdt, hts]⟩
        · exact ⟨(some (ts.sum / (ts.length : Rat)), none),
            by simp [currentWeekSection, hdt, hts]⟩

theorem historicalSection_ok_today_zero (wd : String) (records : List RecordJson)
    (h : ∀ r ∈ records, r.weekday.isSome ∧ r.total_hours.isSome ∧ r.date.isSome) :
    ∃ out, historicalSection (some 0) wd records = .ok out := by
  obtain ⟨wrecs, hw, hsub⟩ := filterWeekday_ok wd records (fun r hr => (h r hr).1)
  by_cases hwe : wrecs = []
  · exact ⟨none, by simp [historicalSection, hw, hwe]⟩
  · obtain ⟨ts, hts⟩ := recordTotals_ok wrecs (fun r hr => (h r (hsub r hr)).2.1)
    obtain ⟨ks, hks⟩ := keyRecordsByDate_ok wrecs (fun r hr => (h r (hsub r hr)).2.2)
    have heq : historicalSection (some 0) wd records
        = .ok (some (ts.sum / ((ts.length : Nat) : Rat), none,
            ((ks.foldl (fun acc x => insertByDateDesc x acc) []).map
              (fun p => p.2)).take 4)) := by
      simp only [historicalSection, hw, if_neg hwe, hts, eq_self_iff_true, if_true,
        sortRecordsByDateDesc, hks]
    exact ⟨_, heq⟩

/-- C8 amended: the today, current-week, language and alternate-week sections
are isolated behind their own `except (KeyError, TypeError)` handlers, but the
historical-weekday and weekly-trend sections read the persisted records
unguarded, so a record missing `weekday`, `date` or `total_hours` (or with an
unparsable date) raises out of the analyzer and aborts the remaining
sections.  Conversely, whenever the persisted store loads to well-formed
records and today's grand total is present (here an idle day with total 0,
which also avoids the analyzer's unguarded divisions), the analyzer completes
for every value of the live week aggregates — malformed keys there degrade
only their own section. -/
theorem analyzer_sections_isolated (weekOf : String → Option Nat) (inp : AnalyzerInputs)
    (rs0 : List RecordJson)
    (hload : loadDailyRecords inp.store = .ok rs0)
    (hrecs : ∀ r ∈ rs0, wellFormedRecord weekOf r)
    (htoday : inp.today_status
      = some { grand_total := some 0, categories := none, languages := none })
    (htd : (weekOf inp.today_date).isSome) :
    ∃ rep, get_productivity_analysis weekOf inp = .ok rep := by
  have htt : todayTotalVar inp.today_status = some 0 := by rw [htoday]; rfl
  have hbuild : build_daily_stats inp.today_date inp.today_weekday inp.today_status
      = .ok { date := some inp.today_date, weekday := some inp.today_weekday,
              total_hours := some 0, categories := some [], languages := some [] } := by
    rw [htoday]; rfl
  obtain ⟨recs, hup, hmem⟩ := upsert_ok_of_dates rs0 inp.today_date
    { date := some inp.today_date, weekday := some inp.today_weekday,
      total_hours := some 0, categories := some [], languages := some [] }
    (fun r hr => by
      obtain ⟨_, _, d, hd, _⟩ := hrecs r hr
      rw [hd]; rfl)
  have hsave : save_daily_stats inp.store inp.today_date inp.today_weekday
      inp.today_status = .ok recs := by
    simp only [save_daily_stats, hbuild, hload, hup]
  have hwf : ∀ r ∈ recs, wellFormedRecord weekOf r := by
    intro r hr
    rcases hmem r hr with h1 | h1
    · exact hrecs r h1
    · subst h1
      exact ⟨rfl, rfl, inp.today_date, rfl, htd⟩
  obtain ⟨wk, hwk⟩ := currentWeekSection_ok_today_zero inp.week_summaries_data
  obtain ⟨hist, hhist⟩ := historicalSection_ok_today_zero inp.today_weekday recs
    (fun r hr => by
      obtain ⟨hw, hth, d, hd, _⟩ := hwf r hr
      exact ⟨hw, hth, by rw [hd]; rfl⟩)
  obtain ⟨weekly, hweekly⟩ := weeklyTrendsSection_ok weekOf recs hwf
  have heq : get_productivity_analysis weekOf inp
      = .ok { today := todaySection inp.today_status,
              week_avg := wk.1, week_perf := wk.2,
              historical := hist, weekly_averages := weekly,
              languages_used := languagesSection inp.week_stats_data,
              alt_week := altWeekSection inp.week_stats_data } := by
    simp only [get_productivity_analysis, hsave, htt, hwk, hhist, hweekly]
  exact ⟨_, heq⟩

/-- Closed instance of the amended isolation theorem: empty store, idle today
status, and a malformed current-week day entry — the analyzer still completes
(that section degrades on its own). -/
theorem analyzer_sections_isolated_witness :
    ∃ rep,
      get_productivity_analysis (fun _ => some 1)
        { today_status := some { grand_total := some 0, categories := none,
                                 languages := none },
          week_summaries_data := some [{ range_date := none, grand_total := none }],
          week_stats_data := none,
          store := .missing,
          today_date := "2024-01-02",
          today_weekday := "Tuesday",
          current_week := 1 } = .ok rep :=
  analyzer_sections_isolated (fun _ => some 1) _ [] rfl (by simp) rfl rfl

end Waka
